import Mathlib

/-!
Shallow embedding of `src/format.rs`: the canonicalizing formatter's
tree serializer, spacing state machine and format driver.

The `ast`, `ops` (primitive registry), `parse` and `compile` modules of the
repository are not under `src/`; the definitions below that stand for them
are modelled from the spec (each carries a doc comment saying so).
Spans (`Sp`) carry no formatting behaviour and are dropped: word lists are
`List Word` where the source has `Vec<Sp<Word>>` and reads `.value`.
Rust's Unicode `char::is_alphanumeric` / `char::is_alphabetic` are modelled
by Lean's `Char.isAlphanum` / `Char.isAlpha`.
-/

namespace Uiua

/-- Modelled from the spec: a Primitive Registry entry — "an immutable
registry entry with a name, a canonical display form". The flag for an
alphabetic display form is computed from the form itself. -/
structure Prim where
  name : String
  display : String
deriving DecidableEq, Repr

/-- `Word`: one syntactic unit. Mirrors `ast::Word` as described by the
spec's data model (`src/format.rs` matches exactly these variants). -/
inductive Word where
  | real (f : String)
  | char (c : Char)
  | str (s : String)
  | ident (id : String)
  | strand (ws : List Word)
  | array (ws : List Word)
  | func (body : List Word)
  | selector (s : String)
  | funcArray (fs : List (List Word))
  | primitive (p : Prim)
  | modified (modifier : Word) (word : Word)
deriving Repr

/-- `Binding`: a name plus the word sequence defining its value. -/
structure Binding where
  name : String
  words : List Word
deriving Repr

/-- `Item`: a top-level document element. -/
inductive Item where
  | words (ws : List Word)
  | binding (b : Binding)
  | comment (c : String)
  | newlines
deriving Repr

/-- Modelled from the spec: the Primitive Registry is "a fixed table mapping
operator names/symbols to canonical display forms; queried by name, never
mutated". A small fixed table with both symbolic and alphabetic display
forms. -/
def registry : List Prim :=
  [⟨"add", "+"⟩, ⟨"sub", "-"⟩, ⟨"mul", "*"⟩, ⟨"not", "not"⟩, ⟨"abs", "abs"⟩]

/-- `Primitive::from_name`: look the spelling up in the registry. -/
def Prim.from_name (id : String) : Option Prim :=
  registry.find? (fun p => p.name == id)

/-- `Primitive`'s `Display`: its canonical display form. -/
def Prim.toString (p : Prim) : String := p.display

/-- Modelled from the spec: the Binding Oracle ("Compiler") "maintains the
set of names currently bound by user code" and its `register` "may itself
append to an internal diagnostics list, e.g., for duplicate or invalid
bindings". `log` instruments the oracle with the exact sequence of items
registered, in order, so registration ordering can be stated. -/
structure Compiler where
  bound : List String
  errors : List String
  log : List Item

/-- `Compiler::new()`. -/
def Compiler.new : Compiler := ⟨[], [], []⟩

/-- `Compiler::eval_consts(false)`: modelled as the identity — constant
evaluation plays no role in the spec's formatting behaviour. -/
def Compiler.eval_consts (c : Compiler) (_ : Bool) : Compiler := c

/-- `Compiler::is_bound`: whether the name is currently bound. -/
def Compiler.is_bound (c : Compiler) (id : String) : Bool :=
  c.bound.contains id

/-- Modelled from the spec: `register(item)` — a `Binding` item binds its
name; registering a duplicate binding appends a diagnostic (the spec's
example of an oracle-side error). Every registered item is appended to the
instrumentation log. -/
def Compiler.item (c : Compiler) (it : Item) : Compiler :=
  match it with
  | .binding b =>
      { bound := b.name :: c.bound
        errors := if c.bound.contains b.name then
            c.errors ++ ["duplicate binding: " ++ b.name]
          else c.errors
        log := c.log ++ [it] }
  | _ => { c with log := c.log ++ [it] }

/-- `FormatState`: output buffer, `was_strand` flag, Binding Oracle. -/
structure FormatState where
  string : String
  was_strand : Bool
  compiler : Compiler

/-- The last character of the buffer, if any. -/
def lastChar? (s : String) : Option Char := s.data.getLast?

/-- Rust `s.ends_with(char::is_alphanumeric)`. -/
def endsAlnum (s : String) : Bool := (lastChar? s).any Char.isAlphanum

/-- Rust `s.ends_with(char::is_alphabetic)`. -/
def endsAlpha (s : String) : Bool := (lastChar? s).any Char.isAlpha

/-- Rust `s.starts_with(char::is_alphabetic)`. -/
def startsAlpha (s : String) : Bool := s.data.head?.any Char.isAlpha

/-- `FormatState::push`: clear `was_strand`, append the token's display
text to the buffer. -/
def pushS (t : String) (s : FormatState) : FormatState :=
  { s with was_strand := false, string := s.string ++ t }

/-- `FormatState::space_if_was_strand`. -/
def space_if_was_strand (s : FormatState) : FormatState :=
  if s.was_strand then pushS " " s else s

/-- `FormatState::space_if_alphanumeric`. -/
def space_if_alphanumeric (s : FormatState) : FormatState :=
  let s := space_if_was_strand s
  if endsAlnum s.string then pushS " " s else s

/-- `FormatState::space_if_alphabetic`. -/
def space_if_alphabetic (s : FormatState) : FormatState :=
  let s := space_if_was_strand s
  if endsAlpha s.string then pushS " " s else s

/-- Modelled from the spec: Rust's `{c:?}` debug form of a char — a
"quoted/escaped debug-style representation". -/
def charEscape (c : Char) : String :=
  if c = '\n' then "\\n"
  else if c = '\t' then "\\t"
  else if c = '\r' then "\\r"
  else if c = '\\' then "\\\\"
  else if c = '\'' then "\\'"
  else String.singleton c

/-- Rust `format!("{c:?}")` for a char literal. -/
def charDebug (c : Char) : String := "'" ++ charEscape c ++ "'"

/-- Modelled from the spec: Rust's `{s:?}` debug form of a string. -/
def strEscape (c : Char) : String :=
  if c = '\n' then "\\n"
  else if c = '\t' then "\\t"
  else if c = '\r' then "\\r"
  else if c = '\\' then "\\\\"
  else if c = '"' then "\\\""
  else String.singleton c

/-- Rust `format!("{s:?}")` for a string literal. -/
def strDebug (t : String) : String :=
  "\"" ++ String.join (t.data.map strEscape) ++ "\""

/-- `impl Format for Primitive`: if the canonical form starts with an
alphabetic character, apply `space_if_alphanumeric` first, then push it. -/
def formatPrim (p : Prim) (s : FormatState) : FormatState :=
  let d := p.toString
  let s := if startsAlpha d then space_if_alphanumeric s else s
  pushS d s

/-! `impl Format for Word`, with the per-list traversals of the source's
`for` loops as mutual helpers. -/

mutual

/-- `impl Format for Word` (`src/format.rs`, per-variant). -/
def formatWord (w : Word) (s : FormatState) : FormatState :=
  match w with
  | .real f => pushS f (space_if_alphanumeric s)
  | .char c => pushS (charDebug c) (space_if_alphanumeric s)
  | .str t => pushS (strDebug t) (space_if_alphanumeric s)
  | .ident id =>
      if s.compiler.is_bound id = false then
        match Prim.from_name id with
        | some p => formatPrim p s
        | none => pushS id (space_if_alphabetic s)
      else pushS id (space_if_alphabetic s)
  | .strand ws =>
      let s :=
        match ws with
        | [] => s
        | w :: rest => formatStrandRest rest (formatWord w s)
      { s with was_strand := true }
  | .array ws => pushS "]" (formatWords ws (pushS "[" s))
  | .func body => pushS ")" (formatWords body (pushS "(" s))
  | .selector t => pushS t (space_if_alphabetic s)
  | .funcArray fs =>
      let s := pushS "(" s
      let s :=
        match fs with
        | [] => s
        | f :: rest => formatBodiesRest rest (formatWords f s)
      pushS ")" s
  | .primitive p => formatPrim p s
  | .modified m w => formatWord w (formatWord m s)

/-- The source's `for word in words` loops: render each word in order. -/
def formatWords (ws : List Word) (s : FormatState) : FormatState :=
  match ws with
  | [] => s
  | w :: rest => formatWords rest (formatWord w s)

/-- Strand members after the first: `_` before each member. -/
def formatStrandRest (ws : List Word) (s : FormatState) : FormatState :=
  match ws with
  | [] => s
  | w :: rest => formatStrandRest rest (formatWord w (pushS "_" s))

/-- Function-array bodies after the first: `|` before each body. -/
def formatBodiesRest (fs : List (List Word)) (s : FormatState) : FormatState :=
  match fs with
  | [] => s
  | f :: rest => formatBodiesRest rest (formatWords f (pushS "|" s))

end

/-- `impl Format for Binding`: name, literal ` = `, then the value words. -/
def formatBinding (b : Binding) (s : FormatState) : FormatState :=
  formatWords b.words (pushS " = " (pushS b.name s))

/-- The match-arm body of `impl Format for Item`: the item's own text,
before the oracle registration and the trailing line terminator. -/
def renderBody (it : Item) (s : FormatState) : FormatState :=
  match it with
  | .words ws => formatWords ws s
  | .binding b => formatBinding b s
  | .comment c => pushS c (pushS "# " s)
  | .newlines => s

/-- `impl Format for Item`: render the item's text, register the item with
the Binding Oracle (`state.compiler.item(self.clone())`), push `'\n'`. -/
def formatItem (it : Item) (s : FormatState) : FormatState :=
  let s1 := renderBody it s
  let s2 := { s1 with compiler := s1.compiler.item it }
  pushS "\n" s2

/-- The fresh state of `format_items`:
`Compiler::new().eval_consts(false)`, empty buffer, flag clear. -/
def initState : FormatState :=
  { string := "", was_strand := false
    compiler := Compiler.new.eval_consts false }

/-- Rust `str::trim_end` (trailing whitespace removed). -/
def rustTrimEnd (s : String) : String :=
  ⟨(s.data.reverse.dropWhile Char.isWhitespace).reverse⟩

/-- `format_items`: run the serializer over all items, fail on accumulated
oracle diagnostics, otherwise trim trailing whitespace and append one
`'\n'`. -/
def format_items (items : List Item) : Except (List String) String :=
  let st := items.foldl (fun s it => formatItem it s) initState
  if st.compiler.errors.isEmpty = false then
    .error st.compiler.errors
  else
    .ok (rustTrimEnd st.string ++ "\n")

/-- Modelled from the spec: the Parser boundary
`parse(sourceText, path) -> (ItemSequence, ParseDiagnostics)` is external
to `src/`, so `format` is parameterized over it. -/
abbrev ParseFn := String → List Item × List String

/-- `format`: parse; on parse diagnostics return them immediately;
otherwise delegate to `format_items`, merging the (empty) parse
diagnostics with serializer diagnostics on failure. -/
def format (parse : ParseFn) (input : String) :
    Except (List String) String :=
  let (items, errors) := parse input
  if errors.isEmpty then
    match format_items items with
    | .ok s => .ok s
    | .error e => .error (errors ++ e)
  else .error errors

/-- Modelled from the spec: the observable outcome of `format_file` on a
file, the file system reduced to that one file's content (the read is
assumed to succeed). `wrote` records whether `fs::write` ran. -/
structure FileOutcome where
  result : Except (List String) String
  content : String
  wrote : Bool
deriving Repr

/-- `format_file`: read, format, and write back only if the formatted text
differs from the original. -/
def format_file (parse : ParseFn) (input : String) : FileOutcome :=
  match format parse input with
  | .error e => { result := .error e, content := input, wrote := false }
  | .ok formatted =>
      if formatted = input then
        { result := .ok formatted, content := input, wrote := false }
      else
        { result := .ok formatted, content := formatted, wrote := true }

/-! ### Basic lemmas about the spacing state machine -/

@[simp] theorem pushS_compiler (t : String) (s : FormatState) :
    (pushS t s).compiler = s.compiler := rfl

@[simp] theorem pushS_was_strand (t : String) (s : FormatState) :
    (pushS t s).was_strand = false := rfl

theorem pushS_string (t : String) (s : FormatState) :
    (pushS t s).string = s.string ++ t := rfl

@[simp] theorem space_if_was_strand_compiler (s : FormatState) :
    (space_if_was_strand s).compiler = s.compiler := by
  unfold space_if_was_strand; split <;> rfl

@[simp] theorem space_if_alphanumeric_compiler (s : FormatState) :
    (space_if_alphanumeric s).compiler = s.compiler := by
  unfold space_if_alphanumeric
  dsimp only
  split <;> simp

@[simp] theorem space_if_alphabetic_compiler (s : FormatState) :
    (space_if_alphabetic s).compiler = s.compiler := by
  unfold space_if_alphabetic
  dsimp only
  split <;> simp

@[simp] theorem formatPrim_compiler (p : Prim) (s : FormatState) :
    (formatPrim p s).compiler = s.compiler := by
  unfold formatPrim
  dsimp only
  split <;> simp

theorem space_if_was_strand_string (s : FormatState) :
    ∃ r, (space_if_was_strand s).string = s.string ++ r := by
  unfold space_if_was_strand
  split
  · exact ⟨" ", rfl⟩
  · exact ⟨"", by simp⟩

theorem space_if_alphanumeric_string (s : FormatState) :
    ∃ r, (space_if_alphanumeric s).string = s.string ++ r := by
  unfold space_if_alphanumeric
  dsimp only
  obtain ⟨r0, h0⟩ := space_if_was_strand_string s
  split
  · exact ⟨r0 ++ " ", by simp [pushS_string, h0, String.append_assoc]⟩
  · exact ⟨r0, h0⟩

theorem space_if_alphabetic_string (s : FormatState) :
    ∃ r, (space_if_alphabetic s).string = s.string ++ r := by
  unfold space_if_alphabetic
  dsimp only
  obtain ⟨r0, h0⟩ := space_if_was_strand_string s
  split
  · exact ⟨r0 ++ " ", by simp [pushS_string, h0, String.append_assoc]⟩
  · exact ⟨r0, h0⟩

theorem formatPrim_string (p : Prim) (s : FormatState) :
    ∃ r, (formatPrim p s).string = s.string ++ r := by
  unfold formatPrim
  dsimp only
  split
  · obtain ⟨r0, h0⟩ := space_if_alphanumeric_string s
    exact ⟨r0 ++ p.toString, by simp [pushS_string, h0, String.append_assoc]⟩
  · exact ⟨p.toString, rfl⟩

/-! ### Rendering never touches the Binding Oracle -/

mutual

theorem formatWord_compiler (w : Word) (s : FormatState) :
    (formatWord w s).compiler = s.compiler := by
  match w with
  | .real f => simp [formatWord]
  | .char c => simp [formatWord]
  | .str t => simp [formatWord]
  | .ident id =>
      by_cases hb : s.compiler.is_bound id = false
      · cases hp : Prim.from_name id with
        | some p => simp [formatWord, hb, hp]
        | none => simp [formatWord, hb, hp]
      · simp [formatWord, hb]
  | .strand ws =>
      cases ws with
      | nil => simp [formatWord]
      | cons w rest =>
          simp [formatWord, formatStrandRest_compiler rest (formatWord w s),
            formatWord_compiler w s]
  | .array ws => simp [formatWord, formatWords_compiler ws (pushS "[" s)]
  | .func body => simp [formatWord, formatWords_compiler body (pushS "(" s)]
  | .selector t => simp [formatWord]
  | .funcArray fs =>
      cases fs with
      | nil => simp [formatWord]
      | cons f rest =>
          simp [formatWord, formatWords_compiler f (pushS "(" s),
            formatBodiesRest_compiler rest (formatWords f (pushS "(" s))]
  | .primitive p => simp [formatWord]
  | .modified m w' =>
      simp [formatWord, formatWord_compiler m s,
        formatWord_compiler w' (formatWord m s)]

theorem formatWords_compiler (ws : List Word) (s : FormatState) :
    (formatWords ws s).compiler = s.compiler := by
  match ws with
  | [] => simp [formatWords]
  | w :: rest =>
      rw [formatWords, formatWords_compiler rest (formatWord w s),
        formatWord_compiler w s]

theorem formatStrandRest_compiler (ws : List Word) (s : FormatState) :
    (formatStrandRest ws s).compiler = s.compiler := by
  match ws with
  | [] => simp [formatStrandRest]
  | w :: rest =>
      rw [formatStrandRest,
        formatStrandRest_compiler rest (formatWord w (pushS "_" s)),
        formatWord_compiler w (pushS "_" s), pushS_compiler]

theorem formatBodiesRest_compiler (fs : List (List Word)) (s : FormatState) :
    (formatBodiesRest fs s).compiler = s.compiler := by
  match fs with
  | [] => simp [formatBodiesRest]
  | f :: rest =>
      rw [formatBodiesRest,
        formatBodiesRest_compiler rest (formatWords f (pushS "|" s)),
        formatWords_compiler f (pushS "|" s), pushS_compiler]

end

/-! ### Rendering only appends to the buffer -/

mutual

theorem formatWord_string (w : Word) (s : FormatState) :
    ∃ r, (formatWord w s).string = s.string ++ r := by
  match w with
  | .real f =>
      obtain ⟨r0, h0⟩ := space_if_alphanumeric_string s
      exact ⟨r0 ++ f, by simp [formatWord, pushS_string, h0, String.append_assoc]⟩
  | .char c =>
      obtain ⟨r0, h0⟩ := space_if_alphanumeric_string s
      exact ⟨r0 ++ charDebug c,
        by simp [formatWord, pushS_string, h0, String.append_assoc]⟩
  | .str t =>
      obtain ⟨r0, h0⟩ := space_if_alphanumeric_string s
      exact ⟨r0 ++ strDebug t,
        by simp [formatWord, pushS_string, h0, String.append_assoc]⟩
  | .ident id =>
      by_cases hb : s.compiler.is_bound id = false
      · cases hp : Prim.from_name id with
        | some p =>
            obtain ⟨r0, h0⟩ := formatPrim_string p s
            exact ⟨r0, by simp [formatWord, hb, hp, h0]⟩
        | none =>
            obtain ⟨r0, h0⟩ := space_if_alphabetic_string s
            exact ⟨r0 ++ id,
              by simp [formatWord, hb, hp, pushS_string, h0, String.append_assoc]⟩
      · obtain ⟨r0, h0⟩ := space_if_alphabetic_string s
        exact ⟨r0 ++ id,
          by simp [formatWord, hb, pushS_string, h0, String.append_assoc]⟩
  | .strand ws =>
      cases ws with
      | nil => exact ⟨"", by simp [formatWord]⟩
      | cons w rest =>
          obtain ⟨r0, h0⟩ := formatWord_string w s
          obtain ⟨r1, h1⟩ := formatStrandRest_string rest (formatWord w s)
          exact ⟨r0 ++ r1, by simp [formatWord, h1, h0, String.append_assoc]⟩
  | .array ws =>
      obtain ⟨r0, h0⟩ := formatWords_string ws (pushS "[" s)
      exact ⟨"[" ++ r0 ++ "]",
        by simp [formatWord, pushS_string, h0, String.append_assoc]⟩
  | .func body =>
      obtain ⟨r0, h0⟩ := formatWords_string body (pushS "(" s)
      exact ⟨"(" ++ r0 ++ ")",
        by simp [formatWord, pushS_string, h0, String.append_assoc]⟩
  | .selector t =>
      obtain ⟨r0, h0⟩ := space_if_alphabetic_string s
      exact ⟨r0 ++ t, by simp [formatWord, pushS_string, h0, String.append_assoc]⟩
  | .funcArray fs =>
      cases fs with
      | nil => exact ⟨"()", by simp [formatWord, pushS_string, String.append_assoc]⟩
      | cons f rest =>
          obtain ⟨r0, h0⟩ := formatWords_string f (pushS "(" s)
          obtain ⟨r1, h1⟩ := formatBodiesRest_string rest (formatWords f (pushS "(" s))
          exact ⟨"(" ++ r0 ++ r1 ++ ")",
            by simp [formatWord, pushS_string, h1, h0, String.append_assoc]⟩
  | .primitive p =>
      obtain ⟨r0, h0⟩ := formatPrim_string p s
      exact ⟨r0, by simp [formatWord, h0]⟩
  | .modified m w' =>
      obtain ⟨r0, h0⟩ := formatWord_string m s
      obtain ⟨r1, h1⟩ := formatWord_string w' (formatWord m s)
      exact ⟨r0 ++ r1, by simp [formatWord, h1, h0, String.append_assoc]⟩

theorem formatWords_string (ws : List Word) (s : FormatState) :
    ∃ r, (formatWords ws s).string = s.string ++ r := by
  match ws with
  | [] => exact ⟨"", by simp [formatWords]⟩
  | w :: rest =>
      obtain ⟨r0, h0⟩ := formatWord_string w s
      obtain ⟨r1, h1⟩ := formatWords_string rest (formatWord w s)
      exact ⟨r0 ++ r1, by rw [formatWords, h1, h0, String.append_assoc]⟩

theorem formatStrandRest_string (ws : List Word) (s : FormatState) :
    ∃ r, (formatStrandRest ws s).string = s.string ++ r := by
  match ws with
  | [] => exact ⟨"", by simp [formatStrandRest]⟩
  | w :: rest =>
      obtain ⟨r0, h0⟩ := formatWord_string w (pushS "_" s)
      obtain ⟨r1, h1⟩ := formatStrandRest_string rest (formatWord w (pushS "_" s))
      exact ⟨"_" ++ r0 ++ r1,
        by rw [formatStrandRest, h1, h0, pushS_string, String.append_assoc,
          String.append_assoc, String.append_assoc]⟩

theorem formatBodiesRest_string (fs : List (List Word)) (s : FormatState) :
    ∃ r, (formatBodiesRest fs s).string = s.string ++ r := by
  match fs with
  | [] => exact ⟨"", by simp [formatBodiesRest]⟩
  | f :: rest =>
      obtain ⟨r0, h0⟩ := formatWords_string f (pushS "|" s)
      obtain ⟨r1, h1⟩ := formatBodiesRest_string rest (formatWords f (pushS "|" s))
      exact ⟨"|" ++ r0 ++ r1,
        by rw [formatBodiesRest, h1, h0, pushS_string, String.append_assoc,
          String.append_assoc, String.append_assoc]⟩

end

/-! ### Last-character and spacing behaviour lemmas -/

theorem lastChar?_append_one (t u : String) (c : Char) (h : u.data = [c]) :
    lastChar? (t ++ u) = some c := by
  rw [lastChar?, String.data_append, h, List.getLast?_concat]

theorem endsAlnum_append_one (t u : String) (c : Char) (h : u.data = [c])
    (hc : c.isAlphanum = false) : endsAlnum (t ++ u) = false := by
  rw [endsAlnum, lastChar?_append_one t u c h, Option.any_some, hc]

theorem endsAlpha_append_one (t u : String) (c : Char) (h : u.data = [c])
    (hc : c.isAlpha = false) : endsAlpha (t ++ u) = false := by
  rw [endsAlpha, lastChar?_append_one t u c h, Option.any_some, hc]

theorem space_if_alphanumeric_eq_push (s : FormatState)
    (h1 : s.was_strand = false) (h2 : endsAlnum s.string = true) :
    space_if_alphanumeric s = pushS " " s := by
  unfold space_if_alphanumeric space_if_was_strand
  rw [h1]
  simp [h2]

theorem space_if_alphanumeric_eq_self (s : FormatState)
    (h1 : s.was_strand = false) (h2 : endsAlnum s.string = false) :
    space_if_alphanumeric s = s := by
  unfold space_if_alphanumeric space_if_was_strand
  rw [h1]
  simp [h2]

theorem space_if_alphabetic_eq_push (s : FormatState)
    (h1 : s.was_strand = false) (h2 : endsAlpha s.string = true) :
    space_if_alphabetic s = pushS " " s := by
  unfold space_if_alphabetic space_if_was_strand
  rw [h1]
  simp [h2]

theorem space_if_alphabetic_eq_self (s : FormatState)
    (h1 : s.was_strand = false) (h2 : endsAlpha s.string = false) :
    space_if_alphabetic s = s := by
  unfold space_if_alphabetic space_if_was_strand
  rw [h1]
  simp [h2]

theorem space_if_alphabetic_of_strand (s : FormatState)
    (h : s.was_strand = true) : space_if_alphabetic s = pushS " " s := by
  unfold space_if_alphabetic space_if_was_strand
  rw [h]
  have : endsAlpha (pushS " " s).string = false := by
    rw [pushS_string]
    exact endsAlpha_append_one s.string " " ' ' rfl rfl
  simp [this]

theorem space_if_alphanumeric_of_strand (s : FormatState)
    (h : s.was_strand = true) : space_if_alphanumeric s = pushS " " s := by
  unfold space_if_alphanumeric space_if_was_strand
  rw [h]
  have : endsAlnum (pushS " " s).string = false := by
    rw [pushS_string]
    exact endsAlnum_append_one s.string " " ' ' rfl rfl
  simp [this]

/-! ### Item-level lemmas -/

theorem renderBody_compiler (it : Item) (s : FormatState) :
    (renderBody it s).compiler = s.compiler := by
  match it with
  | .words ws => simp [renderBody, formatWords_compiler]
  | .binding b =>
      simp [renderBody, formatBinding, formatWords_compiler]
  | .comment c => simp [renderBody]
  | .newlines => simp [renderBody]

theorem Compiler.item_log (c : Compiler) (it : Item) :
    (c.item it).log = c.log ++ [it] := by
  cases it <;> rfl

theorem Compiler.item_log_words (c : Compiler) (it : Item)
    (h : ∀ b, it ≠ .binding b) :
    c.item it = { c with log := c.log ++ [it] } := by
  cases it with
  | binding b => exact absurd rfl (h b)
  | words ws => rfl
  | comment t => rfl
  | newlines => rfl

theorem formatItem_compiler (it : Item) (s : FormatState) :
    (formatItem it s).compiler = s.compiler.item it := by
  rw [formatItem, pushS_compiler]
  rw [renderBody_compiler]

theorem foldItems_log (its : List Item) (s : FormatState) :
    ((its.foldl (fun s it => formatItem it s) s).compiler).log
      = s.compiler.log ++ its := by
  induction its generalizing s with
  | nil => simp
  | cons it rest ih =>
      rw [List.foldl_cons, ih (formatItem it s), formatItem_compiler,
        Compiler.item_log, List.append_assoc]
      rfl

/-! ### Shared unfolding lemmas for single word variants -/

theorem formatWord_real (f : String) (s : FormatState) :
    formatWord (.real f) s = pushS f (space_if_alphanumeric s) := by
  simp [formatWord]

theorem formatWord_char (c : Char) (s : FormatState) :
    formatWord (.char c) s = pushS (charDebug c) (space_if_alphanumeric s) := by
  simp [formatWord]

theorem formatWord_str (t : String) (s : FormatState) :
    formatWord (.str t) s = pushS (strDebug t) (space_if_alphanumeric s) := by
  simp [formatWord]

theorem formatWord_ident_literal (s : FormatState) (id : String)
    (h : s.compiler.is_bound id = true ∨ Prim.from_name id = none) :
    formatWord (.ident id) s = pushS id (space_if_alphabetic s) := by
  cases h with
  | inl hb => simp [formatWord, hb]
  | inr hp =>
      by_cases hb : s.compiler.is_bound id = false
      · simp [formatWord, hb, hp]
      · simp [formatWord, hb]

theorem formatWord_ident_prim (s : FormatState) (id : String) (p : Prim)
    (hb : s.compiler.is_bound id = false) (hp : Prim.from_name id = some p) :
    formatWord (.ident id) s = formatPrim p s := by
  simp [formatWord, hb, hp]

theorem formatPrim_symbolic (p : Prim) (s : FormatState)
    (h : startsAlpha p.toString = false) : formatPrim p s = pushS p.toString s := by
  unfold formatPrim
  simp [h]

theorem formatPrim_alpha (p : Prim) (s : FormatState)
    (h : startsAlpha p.toString = true) :
    formatPrim p s = pushS p.toString (space_if_alphanumeric s) := by
  unfold formatPrim
  simp [h]

/-! ## The claims -/

/-- C1: an identifier that is not currently bound and whose spelling is in
the Primitive Registry renders by the Primitive rule; otherwise the
space-if-alphabetic rule runs and the literal spelling is pushed; and a
`Binding` item of a given name makes that name bound for every later
query, so a primitive-named identifier occurring after such a Binding
renders as the literal identifier. -/
theorem ident_primitive_vs_binding :
    (∀ (s : FormatState) (id : String) (p : Prim),
       s.compiler.is_bound id = false → Prim.from_name id = some p →
       formatWord (.ident id) s = formatPrim p s)
    ∧ (∀ (s : FormatState) (id : String),
       (s.compiler.is_bound id = true ∨ Prim.from_name id = none) →
       formatWord (.ident id) s = pushS id (space_if_alphabetic s))
    ∧ (∀ (c : Compiler) (b : Binding),
       (c.item (.binding b)).is_bound b.name = true) := by
  refine ⟨fun s id p hb hp => formatWord_ident_prim s id p hb hp,
    fun s id h => formatWord_ident_literal s id h, fun c b => ?_⟩
  simp [Compiler.item, Compiler.is_bound]

/-- C1 witness: with a fresh oracle, the unbound identifier `add` renders
via the primitive rule; after a `Binding` item named `add` is registered,
the same identifier renders as the literal spelling. -/
theorem ident_primitive_vs_binding_witness :
    formatWord (.ident "add") initState = formatPrim ⟨"add", "+"⟩ initState
    ∧ (Compiler.new.item (.binding ⟨"add", []⟩)).is_bound "add" = true
    ∧ formatWord (.ident "add")
        ⟨"", false, Compiler.new.item (.binding ⟨"add", []⟩)⟩
      = pushS "add" (space_if_alphabetic
          ⟨"", false, Compiler.new.item (.binding ⟨"add", []⟩)⟩) := by
  refine ⟨ident_primitive_vs_binding.1 initState "add" ⟨"add", "+"⟩ rfl rfl,
    ident_primitive_vs_binding.2.2 Compiler.new ⟨"add", []⟩, ?_⟩
  exact ident_primitive_vs_binding.2.1 _ "add"
    (Or.inl (ident_primitive_vs_binding.2.2 Compiler.new ⟨"add", []⟩))

/-- C2: rendering an Item's own text never touches the Binding Oracle;
the Item is registered exactly once, after its text and before the line
terminator and the next Item; so after processing any item sequence the
oracle's registration log is exactly that sequence, and while rendering
item i the oracle state carries exactly the registrations of items
0..i-1. -/
theorem render_then_register :
    (∀ (it : Item) (s : FormatState), (renderBody it s).compiler = s.compiler)
    ∧ (∀ (it : Item) (s : FormatState),
        formatItem it s
          = pushS "\n" { renderBody it s with
              compiler := (renderBody it s).compiler.item it })
    ∧ (∀ its : List Item,
        ((its.foldl (fun s it => formatItem it s) initState).compiler).log = its)
    ∧ (∀ (its : List Item) (i : Nat),
        (((its.take i).foldl (fun s it => formatItem it s) initState).compiler).log
          = its.take i) := by
  refine ⟨renderBody_compiler, fun it s => rfl, fun its => ?_, fun its i => ?_⟩
  · rw [foldItems_log]
    rfl
  · rw [foldItems_log]
    rfl

/-- C9: every append to the buffer clears `was_strand` (the
space-appending rules included), the strand check leaves the flag clear
whether or not it fires, it pushes exactly one space when the flag is set,
and it is idempotent — it can never fire twice for one strand closure. -/
theorem push_clears_was_strand :
    (∀ (t : String) (s : FormatState), (pushS t s).was_strand = false)
    ∧ (∀ s : FormatState, (space_if_was_strand s).was_strand = false)
    ∧ (∀ s : FormatState, s.was_strand = true →
        space_if_was_strand s = pushS " " s)
    ∧ (∀ s : FormatState,
        space_if_was_strand (space_if_was_strand s) = space_if_was_strand s) := by
  refine ⟨fun t s => rfl, fun s => ?_, fun s h => ?_, fun s => ?_⟩
  · unfold space_if_was_strand
    split
    · rfl
    · simp_all
  · unfold space_if_was_strand
    simp [h]
  · unfold space_if_was_strand
    split <;> simp

/-- C9 witness: on a state with the flag set, the strand rule pushes one
space, and the resulting flag is clear. -/
theorem push_clears_was_strand_witness :
    space_if_was_strand ⟨"1_2", true, Compiler.new⟩
      = pushS " " ⟨"1_2", true, Compiler.new⟩
    ∧ (pushS " " ⟨"1_2", true, Compiler.new⟩).was_strand = false := by
  exact ⟨push_clears_was_strand.2.2.1 _ rfl, push_clears_was_strand.1 " " _⟩

/-- C10: the opening delimiter of an array, function or
function-alternation literal is appended directly with no spacing rule
(whatever the state, in particular right after a strand), and a primitive
whose display form does not start with an alphabetic character is pushed
directly with no spacing rule. -/
theorem delimiter_no_space :
    (∀ (s : FormatState) (ws : List Word),
        ∃ r, (formatWord (.array ws) s).string = s.string ++ ("[" ++ r))
    ∧ (∀ (s : FormatState) (body : List Word),
        ∃ r, (formatWord (.func body) s).string = s.string ++ ("(" ++ r))
    ∧ (∀ (s : FormatState) (fs : List (List Word)),
        ∃ r, (formatWord (.funcArray fs) s).string = s.string ++ ("(" ++ r))
    ∧ (∀ (s : FormatState) (p : Prim), startsAlpha p.toString = false →
        formatPrim p s = pushS p.toString s) := by
  refine ⟨fun s ws => ?_, fun s body => ?_, fun s fs => ?_,
    fun s p h => formatPrim_symbolic p s h⟩
  · obtain ⟨r0, h0⟩ := formatWords_string ws (pushS "[" s)
    exact ⟨r0 ++ "]",
      by simp [formatWord, pushS_string, h0, String.append_assoc]⟩
  · obtain ⟨r0, h0⟩ := formatWords_string body (pushS "(" s)
    exact ⟨r0 ++ ")",
      by simp [formatWord, pushS_string, h0, String.append_assoc]⟩
  · cases fs with
    | nil => exact ⟨")", by simp [formatWord, pushS_string, String.append_assoc]⟩
    | cons f rest =>
        obtain ⟨r0, h0⟩ := formatWords_string f (pushS "(" s)
        obtain ⟨r1, h1⟩ := formatBodiesRest_string rest (formatWords f (pushS "(" s))
        exact ⟨r0 ++ r1 ++ ")",
          by simp [formatWord, pushS_string, h1, h0, String.append_assoc]⟩

/-- C10 witness: immediately after a strand (flag set), an array's `[` and
a symbolic primitive's form follow with no separating space. -/
theorem delimiter_no_space_witness :
    (∃ r, (formatWord (.array []) ⟨"1_2", true, Compiler.new⟩).string
        = "1_2" ++ ("[" ++ r))
    ∧ formatPrim ⟨"add", "+"⟩ ⟨"1_2", true, Compiler.new⟩
        = pushS (Prim.toString ⟨"add", "+"⟩) ⟨"1_2", true, Compiler.new⟩ := by
  exact ⟨delimiter_no_space.1 ⟨"1_2", true, Compiler.new⟩ [],
    delimiter_no_space.2.2.2 ⟨"1_2", true, Compiler.new⟩ ⟨"add", "+"⟩ rfl⟩

/-- C4: with the strand flag clear, the space-if-alphanumeric rule appends
exactly one separating space exactly when the buffer's last character is
alphanumeric, and it is the rule applied before numeric, character and
string literals and before primitive forms starting with an alphabetic
character — so any such token whose rendering would start alphanumeric is
separated from a preceding alphanumeric-ending token by a space. -/
theorem space_if_alphanumeric_rule :
    ∀ s : FormatState, s.was_strand = false →
      (endsAlnum s.string = true →
        (∀ f, (formatWord (.real f) s).string = s.string ++ (" " ++ f))
        ∧ (∀ c, (formatWord (.char c) s).string
            = s.string ++ (" " ++ charDebug c))
        ∧ (∀ t, (formatWord (.str t) s).string
            = s.string ++ (" " ++ strDebug t))
        ∧ (∀ p : Prim, startsAlpha p.toString = true →
            (formatPrim p s).string = s.string ++ (" " ++ p.toString)))
      ∧ (endsAlnum s.string = false →
        (∀ f, (formatWord (.real f) s).string = s.string ++ f)
        ∧ (∀ c, (formatWord (.char c) s).string = s.string ++ charDebug c)
        ∧ (∀ t, (formatWord (.str t) s).string = s.string ++ strDebug t)
        ∧ (∀ p : Prim, (formatPrim p s).string = s.string ++ p.toString)) := by
  intro s h1
  constructor
  · intro h2
    have hs := space_if_alphanumeric_eq_push s h1 h2
    refine ⟨fun f => ?_, fun c => ?_, fun t => ?_, fun p hp => ?_⟩
    · rw [formatWord_real, hs, pushS_string, pushS_string, String.append_assoc]
    · rw [formatWord_char, hs, pushS_string, pushS_string, String.append_assoc]
    · rw [formatWord_str, hs, pushS_string, pushS_string, String.append_assoc]
    · rw [formatPrim_alpha p s hp, hs, pushS_string, pushS_string,
        String.append_assoc]
  · intro h2
    have hs := space_if_alphanumeric_eq_self s h1 h2
    refine ⟨fun f => ?_, fun c => ?_, fun t => ?_, fun p => ?_⟩
    · rw [formatWord_real, hs, pushS_string]
    · rw [formatWord_char, hs, pushS_string]
    · rw [formatWord_str, hs, pushS_string]
    · cases hp : startsAlpha p.toString with
      | true => rw [formatPrim_alpha p s hp, hs, pushS_string]
      | false => rw [formatPrim_symbolic p s hp, pushS_string]

/-- C4 witness: after a buffer ending in the digit 1, a numeric literal 2
is pushed with one separating space, and after a buffer ending in `]` it
is pushed with none. -/
theorem space_if_alphanumeric_rule_witness :
    (formatWord (.real "2") ⟨"1", false, Compiler.new⟩).string = "1" ++ (" " ++ "2")
    ∧ (formatWord (.real "2") ⟨"]", false, Compiler.new⟩).string = "]" ++ "2" := by
  exact ⟨((space_if_alphanumeric_rule ⟨"1", false, Compiler.new⟩ rfl).1 rfl).1 "2",
    ((space_if_alphanumeric_rule ⟨"]", false, Compiler.new⟩ rfl).2 rfl).1 "2"⟩

/-- The text a strand's members after the first contribute: a literal `_`
before each member. -/
def joinUnders : List String → String
  | [] => ""
  | x :: xs => "_" ++ (x ++ joinUnders xs)

/-- Strand members after the first each contribute a literal `_` followed
by the member's text, with no spacing rule firing (shown here for numeric
literal members, whose spacing guard sees the just-pushed `_`). -/
theorem formatStrandRest_reals (xs : List String) (s : FormatState)
    (h : s.was_strand = false) :
    (formatStrandRest (xs.map Word.real) s).string
      = s.string ++ joinUnders xs
    ∧ (formatStrandRest (xs.map Word.real) s).was_strand = false := by
  induction xs generalizing s with
  | nil =>
      constructor
      · simp [formatStrandRest, joinUnders]
      · simp [formatStrandRest, h]
  | cons x rest ih =>
      have hu : endsAlnum (pushS "_" s).string = false := by
        rw [pushS_string]
        exact endsAlnum_append_one s.string "_" '_' rfl rfl
      have hw : formatWord (.real x) (pushS "_" s) = pushS x (pushS "_" s) := by
        rw [formatWord_real, space_if_alphanumeric_eq_self _ rfl hu]
      have step : formatStrandRest ((x :: rest).map Word.real) s
          = formatStrandRest (rest.map Word.real)
              (formatWord (.real x) (pushS "_" s)) := by
        simp [formatStrandRest]
      obtain ⟨ih1, ih2⟩ := ih (formatWord (.real x) (pushS "_" s))
        (by rw [hw]; rfl)
      constructor
      · rw [step, ih1, hw, pushS_string, pushS_string, joinUnders,
          String.append_assoc, String.append_assoc]
      · rw [step, ih2]

/-- C5: a strand renders its members in order joined by a single literal
`_` between consecutive members and sets was_strand on completion (for any
strand, and with the exact joined text shown for strands of numeric
literals); the identifier rendered immediately after a strand closure is
separated from it by exactly one space. -/
theorem strand_rendering :
    (∀ (x : String) (xs : List String) (s : FormatState),
       s.was_strand = false → endsAlnum s.string = false →
       (formatWord (.strand ((x :: xs).map Word.real)) s).string
         = s.string ++ (x ++ joinUnders xs))
    ∧ (∀ (ws : List Word) (s : FormatState),
       (formatWord (.strand ws) s).was_strand = true)
    ∧ (∀ (s : FormatState) (id : String),
       s.was_strand = true →
       (s.compiler.is_bound id = true ∨ Prim.from_name id = none) →
       (formatWord (.ident id) s).string = s.string ++ (" " ++ id)) := by
  refine ⟨fun x xs s h1 h2 => ?_, fun ws s => ?_, fun s id h1 h2 => ?_⟩
  · have hw : formatWord (.real x) s = pushS x s := by
      rw [formatWord_real, space_if_alphanumeric_eq_self s h1 h2]
    have step : (formatWord (.strand ((x :: xs).map Word.real)) s).string
        = (formatStrandRest (xs.map Word.real)
            (formatWord (.real x) s)).string := by
      simp [formatWord]
    obtain ⟨hj, _⟩ := formatStrandRest_reals xs (formatWord (.real x) s)
      (by rw [hw]; rfl)
    rw [step, hj, hw, pushS_string, String.append_assoc]
  · cases ws <;> simp [formatWord]
  · rw [formatWord_ident_literal s id h2, space_if_alphabetic_of_strand s h1,
      pushS_string, pushS_string, String.append_assoc]

/-- C5 witness: the strand of the literals 1, 2, 3 renders as `1_2_3` with
the flag set, and a bare identifier right after such a closure is
separated by exactly one space. -/
theorem strand_rendering_witness :
    (formatWord (.strand [Word.real "1", Word.real "2", Word.real "3"])
        initState).string = "1_2_3"
    ∧ (formatWord (.strand [Word.real "1", Word.real "2", Word.real "3"])
        initState).was_strand = true
    ∧ (formatWord (.ident "x") ⟨"1_2_3", true, Compiler.new⟩).string
        = "1_2_3" ++ (" " ++ "x") := by
  refine ⟨?_, strand_rendering.2.1 _ initState, ?_⟩
  · have h := strand_rendering.1 "1" ["2", "3"] initState rfl rfl
    show (formatWord (.strand (["1", "2", "3"].map Word.real)) initState).string
      = "1_2_3"
    rw [h]
    rfl
  · exact strand_rendering.2.2 ⟨"1_2_3", true, Compiler.new⟩ "x" rfl (Or.inr rfl)

/-- C3: parse diagnostics short-circuit `format` before any serialization;
non-empty oracle diagnostics make `format_items` return exactly those
diagnostics, discarding the rendered text; and a successful result
coexists with no diagnostics from either source. -/
theorem all_or_nothing :
    (∀ (parse : ParseFn) (input : String),
        (parse input).2 ≠ [] → format parse input = .error (parse input).2)
    ∧ (∀ its : List Item,
        (its.foldl (fun s it => formatItem it s) initState).compiler.errors ≠ [] →
        format_items its
          = .error (its.foldl (fun s it => formatItem it s) initState).compiler.errors)
    ∧ (∀ (its : List Item) (t : String), format_items its = .ok t →
        (its.foldl (fun s it => formatItem it s) initState).compiler.errors = [])
    ∧ (∀ (parse : ParseFn) (input : String) (t : String),
        format parse input = .ok t → (parse input).2 = []) := by
  refine ⟨fun parse input h => ?_, fun its h => ?_, fun its t h => ?_,
    fun parse input t h => ?_⟩
  · rw [format]
    cases hp : parse input with
    | mk its errs =>
        rw [hp] at h
        have he : errs.isEmpty = false := by
          simp [List.isEmpty_iff]
          exact h
        simp [he]
  · rw [format_items]
    have he : ((its.foldl (fun s it => formatItem it s)
        initState).compiler.errors).isEmpty = false := by
      simp [List.isEmpty_iff]
      exact h
    simp [he]
  · rw [format_items] at h
    by_cases he : ((its.foldl (fun s it => formatItem it s)
        initState).compiler.errors).isEmpty = false
    · simp [he] at h
    · have : ((its.foldl (fun s it => formatItem it s)
          initState).compiler.errors).isEmpty = true := by
        cases hv : ((its.foldl (fun s it => formatItem it s)
            initState).compiler.errors).isEmpty
        · exact absurd hv he
        · rfl
      exact List.isEmpty_iff.mp this
  · rw [format] at h
    cases hp : parse input with
    | mk its errs =>
        rw [hp] at h
        by_cases he : errs.isEmpty = true
        · exact List.isEmpty_iff.mp he
        · have hf : errs.isEmpty = false := by
            cases hv : errs.isEmpty
            · rfl
            · exact absurd hv he
          simp [hf] at h

/-- C3 witness: a parser that reports a diagnostic makes `format` return
exactly that diagnostic; two same-named `Binding` items make the oracle's
diagnostics non-empty, and `format_items` returns exactly them. -/
theorem all_or_nothing_witness :
    format (fun _ => ([], ["parse error"])) "x" = .error ["parse error"]
    ∧ format_items [.binding ⟨"x", []⟩, .binding ⟨"x", []⟩]
        = .error ([.binding ⟨"x", []⟩,
            .binding ⟨"x", []⟩].foldl (fun s it => formatItem it s)
              initState).compiler.errors := by
  refine ⟨all_or_nothing.1 (fun _ => ([], ["parse error"])) "x" (by simp), ?_⟩
  exact all_or_nothing.2.1 [.binding ⟨"x", []⟩, .binding ⟨"x", []⟩]
    (by simp [formatItem, renderBody, formatBinding, formatWords,
      Compiler.item, initState, Compiler.new, Compiler.eval_consts])

/-- C6: a successful `format_items` result is the rendered buffer with its
trailing whitespace removed plus exactly one appended line terminator: the
last character is a newline and the character before it, if any, is not
whitespace. -/
theorem trailing_newline_normalized :
    ∀ (its : List Item) (t : String), format_items its = .ok t →
      t = rustTrimEnd
            (its.foldl (fun s it => formatItem it s) initState).string ++ "\n"
      ∧ t.data.getLast? = some '\n'
      ∧ (∀ c, t.data.dropLast.getLast? = some c → c.isWhitespace = false) := by
  intro its t h
  rw [format_items] at h
  by_cases he : ((its.foldl (fun s it => formatItem it s)
      initState).compiler.errors).isEmpty = false
  · simp [he] at h
  · have hv : ((its.foldl (fun s it => formatItem it s)
        initState).compiler.errors).isEmpty = true := by
      cases hx : ((its.foldl (fun s it => formatItem it s)
          initState).compiler.errors).isEmpty
      · exact absurd hx he
      · rfl
    rw [hv] at h
    simp only [Bool.true_eq_false, if_false] at h
    have ht : t = rustTrimEnd
        (its.foldl (fun s it => formatItem it s) initState).string ++ "\n" := by
      cases h
      rfl
    refine ⟨ht, ?_, ?_⟩
    · rw [ht, String.data_append]
      exact List.getLast?_concat _
    · intro c hc
      rw [ht, String.data_append] at hc
      have hc2 : ((rustTrimEnd
          (its.foldl (fun s it => formatItem it s) initState).string).data
            ++ ['\n']).dropLast.getLast? = some c := hc
      rw [List.dropLast_concat] at hc2
      have hd : (rustTrimEnd
          (its.foldl (fun s it => formatItem it s) initState).string).data.getLast?
            = some c := hc2
      rw [rustTrimEnd] at hd
      have hh : ((((its.foldl (fun s it => formatItem it s)
          initState).string).data.reverse.dropWhile Char.isWhitespace).reverse).getLast?
            = some c := hd
      rw [List.getLast?_reverse] at hh
      have := List.head?_dropWhile_not Char.isWhitespace
        ((its.foldl (fun s it => formatItem it s) initState).string).data.reverse
      rw [hh] at this
      exact this

/-- C6 witness: the empty item sequence formats successfully to a text
whose last character is the single appended newline. -/
theorem trailing_newline_normalized_witness :
    format_items [] = .ok "\n"
    ∧ ("\n" : String).data.getLast? = some '\n' := by
  exact ⟨rfl, (trailing_newline_normalized [] "\n" rfl).2.1⟩

/-- C7: `format_file` does not write when the formatted text equals the
file content, returning the content unchanged; and whenever it does write,
the formatted text differs from the original and is exactly what the file
then holds. -/
theorem no_op_write :
    (∀ (parse : ParseFn) (input : String),
       format parse input = .ok input →
       format_file parse input
         = { result := .ok input, content := input, wrote := false })
    ∧ (∀ (parse : ParseFn) (input : String),
       (format_file parse input).wrote = true →
       ∃ f, format parse input = .ok f ∧ f ≠ input
         ∧ (format_file parse input).content = f
         ∧ (format_file parse input).result = .ok f) := by
  constructor
  · intro parse input h
    rw [format_file, h]
    simp
  · intro parse input h
    cases hf : format parse input with
    | error e =>
        have hw : (format_file parse input).wrote = false := by
          simp [format_file, hf]
        rw [hw] at h
        exact absurd h (by simp)
    | ok f =>
        by_cases hq : f = input
        · have hw : (format_file parse input).wrote = false := by
            simp [format_file, hf, hq]
          rw [hw] at h
          exact absurd h (by simp)
        · refine ⟨f, rfl, hq, ?_, ?_⟩ <;> simp [format_file, hf, hq]

/-- C7 witness: a clean input (one that formats to itself) is not written
back; the outcome carries the unchanged content and no write. -/
theorem no_op_write_witness :
    format_file (fun _ => ([], [])) "\n"
      = { result := .ok "\n", content := "\n", wrote := false } := by
  exact no_op_write.1 (fun _ => ([], [])) "\n" rfl

end Uiua
